import Mathlib

/-!
Verification of the Guardian-AI legal-analyzer ingestion and retrieval core
(`src/Backend/Guardian-Legal-analyzer-main/legal_tool.py`).

The Python source is shallowly embedded: chunk fingerprinting (SHA-256 of the
UTF-8 content, truncated to 16 hex characters), the accumulate-mode
deduplicating ingestion, the fresh-mode deletion retry with rename fallback,
the single-document retrieval filter with its unfiltered fallback, the
all-documents query, and the database introspection helpers.  External
capabilities (the Chroma similarity search, the filesystem) are passed in as
explicit parameters; machine words are `Nat` reduced modulo `2 ^ 32`.
-/

namespace GuardianAI

/-! ### SHA-256 over byte lists (bytes are `Nat < 256`, words are `Nat < 2^32`) -/

/-- Addition of 32-bit words, reduced modulo `2 ^ 32`. -/
def add32 (a b : Nat) : Nat := (a + b) % 4294967296

/-- Right rotation of a 32-bit word by `n` bits. -/
def rotr32 (n x : Nat) : Nat := ((x >>> n) ||| (x <<< (32 - n))) % 4294967296

/-- Bitwise complement of a 32-bit word. -/
def not32 (x : Nat) : Nat := x ^^^ 4294967295

/-- SHA-256 `Ch` function. -/
def sha256ch (x y z : Nat) : Nat := (x &&& y) ^^^ (not32 x &&& z)

/-- SHA-256 `Maj` function. -/
def sha256maj (x y z : Nat) : Nat := (x &&& y) ^^^ (x &&& z) ^^^ (y &&& z)

/-- SHA-256 big sigma-0. -/
def bigSigma0 (x : Nat) : Nat := rotr32 2 x ^^^ rotr32 13 x ^^^ rotr32 22 x

/-- SHA-256 big sigma-1. -/
def bigSigma1 (x : Nat) : Nat := rotr32 6 x ^^^ rotr32 11 x ^^^ rotr32 25 x

/-- SHA-256 small sigma-0. -/
def smallSigma0 (x : Nat) : Nat := rotr32 7 x ^^^ rotr32 18 x ^^^ (x >>> 3)

/-- SHA-256 small sigma-1. -/
def smallSigma1 (x : Nat) : Nat := rotr32 17 x ^^^ rotr32 19 x ^^^ (x >>> 10)

/-- The 64 SHA-256 round constants (FIPS 180-4), written in decimal. -/
def sha256K : List Nat :=
  [1116352408, 1899447441, 3049323471, 3921009573, 961987163,
   1508970993, 2453635748, 2870763221, 3624381080, 310598401,
   607225278, 1426881987, 1925078388, 2162078206, 2614888103,
   3248222580, 3835390401, 4022224774, 264347078, 604807628,
   770255983, 1249150122, 1555081692, 1996064986, 2554220882,
   2821834349, 2952996808, 3210313671, 3336571891, 3584528711,
   113926993, 338241895, 666307205, 773529912, 1294757372,
   1396182291, 1695183700, 1986661051, 2177026350, 2456956037,
   2730485921, 2820302411, 3259730800, 3345764771, 3516065817,
   3600352804, 4094571909, 275423344, 430227734, 506948616,
   659060556, 883997877, 958139571, 1322822218, 1537002063,
   1747873779, 1955562222, 2024104815, 2227730452, 2361852424,
   2428436474, 2756734187, 3204031479, 3329325298]

/-- Working state of the SHA-256 compression function: eight 32-bit words. -/
structure Hash8 where
  a : Nat
  b : Nat
  c : Nat
  d : Nat
  e : Nat
  f : Nat
  g : Nat
  h : Nat
deriving Repr, DecidableEq

/-- The SHA-256 initial hash value (FIPS 180-4), written in decimal. -/
def sha256H0 : Hash8 :=
  ⟨1779033703, 3144134277, 1013904242, 2773480762,
   1359893119, 2600822924, 528734635, 1541459225⟩

/-- One SHA-256 compression round, consuming a `(roundConstant, scheduleWord)` pair. -/
def sha256Round (s : Hash8) (kw : Nat × Nat) : Hash8 :=
  let t1 := add32 s.h (add32 (bigSigma1 s.e) (add32 (sha256ch s.e s.f s.g) (add32 kw.1 kw.2)))
  let t2 := add32 (bigSigma0 s.a) (sha256maj s.a s.b s.c)
  ⟨add32 t1 t2, s.a, s.b, s.c, add32 s.d t1, s.e, s.f, s.g⟩

/-- Group a byte list into big-endian 32-bit words. -/
def bytesToWords : List Nat → List Nat
  | b0 :: b1 :: b2 :: b3 :: rest =>
      (((b0 * 256 + b1) * 256 + b2) * 256 + b3) :: bytesToWords rest
  | _ => []

/-- Extend the 16-word message schedule by `fuel` further words. -/
def extendSchedule : Nat → List Nat → List Nat
  | 0, w => w
  | fuel + 1, w =>
      let len := w.length
      let nw := add32 (add32 (smallSigma1 (w.getD (len - 2) 0)) (w.getD (len - 7) 0))
                      (add32 (smallSigma0 (w.getD (len - 15) 0)) (w.getD (len - 16) 0))
      extendSchedule fuel (w ++ [nw])

/-- Process one 64-byte block, updating the running hash value. -/
def processBlock (hv : Hash8) (block : List Nat) : Hash8 :=
  let w := extendSchedule 48 (bytesToWords block)
  let s := (sha256K.zip w).foldl sha256Round hv
  ⟨add32 hv.a s.a, add32 hv.b s.b, add32 hv.c s.c, add32 hv.d s.d,
   add32 hv.e s.e, add32 hv.f s.f, add32 hv.g s.g, add32 hv.h s.h⟩

/-- Big-endian 8-byte encoding of a length-in-bits counter. -/
def lengthBytes64 (n : Nat) : List Nat :=
  [n / 72057594037927936 % 256, n / 281474976710656 % 256,
   n / 1099511627776 % 256, n / 4294967296 % 256,
   n / 16777216 % 256, n / 65536 % 256, n / 256 % 256, n % 256]

/-- SHA-256 padding: append `0x80`, zero bytes up to 56 mod 64, then the
bit length of the message as a big-endian 64-bit integer. -/
def sha256pad (msg : List Nat) : List Nat :=
  let l := msg.length
  let k := (119 - l % 64) % 64
  msg ++ 128 :: List.replicate k 0 ++ lengthBytes64 (l * 8)

/-- Split a byte list into consecutive 64-byte blocks (structural recursion on
a fuel bound so that the kernel can evaluate it). -/
def toBlocksAux : Nat → List Nat → List (List Nat)
  | 0, _ => []
  | fuel + 1, l => if l.isEmpty then [] else l.take 64 :: toBlocksAux fuel (l.drop 64)

/-- Split a byte list into consecutive 64-byte blocks. -/
def toBlocks (l : List Nat) : List (List Nat) := toBlocksAux l.length l

/-- Big-endian 4-byte decomposition of a 32-bit word. -/
def wordToBytes (x : Nat) : List Nat :=
  [x / 16777216 % 256, x / 65536 % 256, x / 256 % 256, x % 256]

/-- The SHA-256 digest of a byte list, as a list of 32 bytes. -/
def sha256 (msg : List Nat) : List Nat :=
  let hv := (toBlocks (sha256pad msg)).foldl processBlock sha256H0
  wordToBytes hv.a ++ wordToBytes hv.b ++ wordToBytes hv.c ++ wordToBytes hv.d ++
  wordToBytes hv.e ++ wordToBytes hv.f ++ wordToBytes hv.g ++ wordToBytes hv.h

/-- Lower-case hex character for a value below 16. -/
def hexDigit (n : Nat) : Char :=
  if n < 10 then Char.ofNat (48 + n) else Char.ofNat (87 + n)

/-- Two-character lower-case hex rendering of one byte. -/
def hexByte (b : Nat) : List Char := [hexDigit (b / 16), hexDigit (b % 16)]

/-- Lower-case hex string of a byte list (Python's `.hexdigest()`). -/
def hexdigest (bs : List Nat) : String := String.mk ((bs.map hexByte).flatten)

/-- UTF-8 encoding of one character (Python's `str.encode()` per code point). -/
def utf8EncodeChar (c : Char) : List Nat :=
  let n := c.toNat
  if n < 128 then [n]
  else if n < 2048 then [192 ||| (n >>> 6), 128 ||| (n &&& 63)]
  else if n < 65536 then
    [224 ||| (n >>> 12), 128 ||| ((n >>> 6) &&& 63), 128 ||| (n &&& 63)]
  else
    [240 ||| (n >>> 18), 128 ||| ((n >>> 12) &&& 63),
     128 ||| ((n >>> 6) &&& 63), 128 ||| (n &&& 63)]

/-- UTF-8 encoding of a string as a byte list. -/
def utf8Encode (s : String) : List Nat := (s.data.map utf8EncodeChar).flatten

/-- Embedding of `hashlib.sha256(chunk.page_content.encode()).hexdigest()`
(legal_tool.py line 79). -/
def content_hash (s : String) : String := hexdigest (sha256 (utf8Encode s))

/-- Embedding of `content_hash[:16]` (legal_tool.py line 80): the chunk's
fingerprint, the first 16 hex characters of the SHA-256 digest. -/
def chunkId (s : String) : String := String.mk ((content_hash s).data.take 16)

example : content_hash "" =
    "e3b0c44298fc1c149afbf4c8996fb92427ae41e4649b934ca495991b7852b855" := by decide

example : content_hash "abc" =
    "ba7816bf8f01cfea414140de5dae2223b00361a396177a9cb410ff61f20015ad" := by decide

example : chunkId "" = "e3b0c44298fc1c14" := by decide

/-! ### Data model: chunks and the persistent store

A `Chunk` is a langchain `Document`: text content plus optional `source`
metadata (`doc.metadata.get('source')`).  The persistent Chroma store is
modelled by the list of entry ids it holds. -/

/-- A document chunk: `page_content` plus the optional `source` metadata. -/
structure Chunk where
  page_content : String
  source : Option String
deriving Repr, DecidableEq

/-- Embedding of the fingerprint loop (legal_tool.py lines 77-80): one id per
chunk, in order. -/
def chunk_ids (chunks : List Chunk) : List String :=
  chunks.map (fun c => chunkId c.page_content)

/-- Chroma's `collection.get(ids=..., include=[])`: of the requested ids,
return those present in the store. -/
def collectionGet (storeIds ids : List String) : List String :=
  ids.filter (fun i => storeIds.contains i)

/-! ### Accumulate-mode ingestion (legal_tool.py lines 84-113) -/

/-- Observable outcome of one accumulate-mode ingestion call. -/
structure IngestResult where
  new_chunks : List Chunk
  new_chunk_ids : List String
  duplicates_skipped : Nat
  storeAfter : List String
deriving Repr, DecidableEq

/-- Embedding of the accumulate branch (legal_tool.py lines 84-113), with the
result of `collection.get(ids=chunk_ids)` passed in explicitly: on lookup
error the code sets `existing_ids = set()` (lines 91-95); then each chunk is
kept only when its id is not among the existing ids (lines 97-102);
`duplicates_skipped = len(chunks) - len(new_chunks)` (line 104); and
`add_documents` is called only when `new_chunks` is nonempty (lines 106-113). -/
def accumulateIngestWith (storeIds : List String)
    (getResult : Except String (List String)) (chunks : List Chunk) : IngestResult :=
  let ids := chunk_ids chunks
  let existing_ids : List String :=
    match getResult with
    | .ok l => l
    | .error _ => []
  let pairs := (chunks.zip ids).filter (fun p => !(existing_ids.contains p.2))
  let new_chunks := pairs.map Prod.fst
  let new_chunk_ids := pairs.map Prod.snd
  { new_chunks := new_chunks
    new_chunk_ids := new_chunk_ids
    duplicates_skipped := chunks.length - new_chunks.length
    storeAfter := if new_chunks.isEmpty then storeIds else storeIds ++ new_chunk_ids }

/-- Accumulate-mode ingestion with the membership lookup succeeding, as it
does when the store answers: the existing ids are the requested ids already
present in the store. -/
def accumulateIngest (storeIds : List String) (chunks : List Chunk) : IngestResult :=
  accumulateIngestWith storeIds (Except.ok (collectionGet storeIds (chunk_ids chunks))) chunks

/-! ### Fresh-mode reset: deletion retry with rename fallback
(legal_tool.py lines 44-62) -/

/-- Outcome of one `shutil.rmtree` attempt: success, a `PermissionError`
(transient file lock), or any other exception. -/
inductive DelOutcome where
  | ok
  | permError (msg : String)
  | otherError (msg : String)
deriving Repr, DecidableEq

/-- Result of the fresh-mode reset. `raised` is an exception the retry loop
does not catch (anything but `PermissionError`); `storeUnavailable` is the
`raise Exception(...)` at line 62 after deletion and rename both failed. -/
inductive ResetResult where
  | deleted
  | renamedAside (backup : String)
  | storeUnavailable (msg : String)
  | raised (msg : String)
deriving Repr, DecidableEq

/-- The fixed store location (legal_tool.py line 12). -/
def CHROMA_DB_DIR : String := "./chroma_db"

/-- The rename-aside target `f"{CHROMA_DB_DIR}_backup_{int(time.time())}"`
(line 56). -/
def backupDirName (timestamp : Nat) : String :=
  CHROMA_DB_DIR ++ "_backup_" ++ toString timestamp

/-- The message of the exception raised when deletion and rename both fail
(line 62); `e` is the `PermissionError` of the last deletion attempt. -/
def storeUnavailableMsg (e : String) : String :=
  "Cannot delete or rename database. Please close all programs using it and try again. Error: " ++ e

/-- Embedding of the deletion retry loop (lines 44-62), `max_retries = 3`
unrolled: `rmtree i` is the outcome of the i-th `shutil.rmtree` attempt,
`renameOk` whether the fallback `os.rename` succeeds. -/
def deleteWithRetry (rmtree : Nat → DelOutcome) (renameOk : Bool)
    (timestamp : Nat) : ResetResult :=
  match rmtree 0 with
  | .ok => .deleted
  | .otherError m => .raised m
  | .permError _ =>
    match rmtree 1 with
    | .ok => .deleted
    | .otherError m => .raised m
    | .permError _ =>
      match rmtree 2 with
      | .ok => .deleted
      | .otherError m => .raised m
      | .permError e =>
        if renameOk then .renamedAside (backupDirName timestamp)
        else .storeUnavailable (storeUnavailableMsg e)

/-! ### Single-document retrieval filter (legal_tool.py lines 130-145) -/

/-- Embedding of `os.path.basename` for POSIX paths: the part after the last
slash. -/
def basename (p : String) : String :=
  String.mk ((p.data.reverse.takeWhile (fun c => !(c == '/'))).reverse)

/-- Embedding of Python's `str.endswith`: the suffix test on the characters. -/
def strEndsWith (s suffix : String) : Bool := suffix.data.isSuffixOf s.data

/-- Result of the single-document retrieval: the chunks handed to the answer
synthesizer, and whether the unfiltered fallback branch was taken (the
observable `⚠️ No chunks from current PDF found` path, line 144). -/
structure RetrievalResult where
  docs : List Chunk
  usedFallback : Bool
deriving Repr, DecidableEq

/-- Embedding of the `filter_by_current_pdf` branch (lines 130-145): a
similarity search with `k = 20`, a filter keeping docs whose source string
ends with the current PDF's basename, truncation to 5, and the unfiltered
top-5 fallback when the filtered list is empty. -/
def singleDocRetrieve (search : Nat → List Chunk) (pdf_file_path : String) :
    RetrievalResult :=
  let current_pdf_name := basename pdf_file_path
  let all_relevant_docs := search 20
  let relevant_docs :=
    (all_relevant_docs.filter
      (fun d => strEndsWith (d.source.getD "") current_pdf_name)).take 5
  if relevant_docs.isEmpty then ⟨all_relevant_docs.take 5, true⟩
  else ⟨relevant_docs, false⟩

/-! ### All-documents query (legal_tool.py lines 185-238) -/

/-- One step of the `source_files` dictionary build (lines 206-210): bump the
count of `s`, inserting it at count 1 when absent. -/
def addCount (m : List (String × Nat)) (s : String) : List (String × Nat) :=
  if m.any (fun p => p.1 == s) then
    m.map (fun p => if p.1 == s then (p.1, p.2 + 1) else p)
  else m ++ [(s, 1)]

/-- The `source_files` mapping of `query_all_pdfs`: for each returned doc that
carries `source` metadata, count it under the source's basename. -/
def sourceFilesOf (docs : List Chunk) : List (String × Nat) :=
  docs.foldl
    (fun m d =>
      match d.source with
      | some s => addCount m (basename s)
      | none => m) []

/-- Returned record of `query_all_pdfs` when a store is present. -/
structure QueryAllResult where
  docs : List Chunk
  sources : List String
  chunk_distribution : List (String × Nat)
deriving Repr, DecidableEq

/-- Embedding of `query_all_pdfs` (lines 185-238): `none` models the
early-return `"No database found"` answer; otherwise the similarity search
runs with the caller's `k` and the results are returned unfiltered, together
with the per-source chunk distribution. -/
def query_all_pdfs (dbExists : Bool) (search : Nat → List Chunk) (k : Nat) :
    Option QueryAllResult :=
  if !dbExists then none
  else
    let relevant_docs := search k
    let source_files := sourceFilesOf relevant_docs
    some ⟨relevant_docs, source_files.map Prod.fst, source_files⟩

/-! ### Database introspection (legal_tool.py lines 241-284) and
`clear_database` (lines 175-182) -/

/-- Returned record of `get_database_info`, with the byte total the reported
`size_mb = round(total_size / (1024*1024), 2)` is derived from. -/
structure DbInfo where
  present : Bool
  total_size : Nat
deriving Repr, DecidableEq

/-- The `os.walk` summation (lines 249-256): file sizes under the store
directory; `none` models a file whose `getsize` raises and is skipped. -/
def walkTotalSize (sizes : List (Option Nat)) : Nat :=
  sizes.foldl
    (fun acc s =>
      match s with
      | some n => acc + n
      | none => acc) 0

/-- Embedding of `get_database_info` (lines 241-263). -/
def get_database_info (dbExists : Bool) (fileSizes : List (Option Nat)) : DbInfo :=
  if !dbExists then ⟨false, 0⟩
  else ⟨true, walkTotalSize fileSizes⟩

/-- Return value of `get_database_chunk_count`: an integer, or the
`f"Error: {str(e)}"` string the `except` branch returns (lines 283-284). -/
inductive CountResult where
  | count (n : Nat)
  | errorMsg (s : String)
deriving Repr, DecidableEq

/-- Embedding of `get_database_chunk_count` (lines 266-284), with the result
of opening the store and querying `collection.count()` passed in explicitly. -/
def get_database_chunk_count (dbExists : Bool) (openRes : Except String Nat) :
    CountResult :=
  if !dbExists then .count 0
  else
    match openRes with
    | .ok n => .count n
    | .error e => .errorMsg ("Error: " ++ e)

/-- Observable outcome of `clear_database`: the returned value (or the
propagated `rmtree` exception) and whether the store directory still exists
afterwards. -/
structure ClearOutcome where
  returned : Except String Bool
  dbExistsAfter : Bool
deriving Repr

/-- Embedding of `clear_database` (lines 175-182): `rmtreeRes` is the outcome
of `shutil.rmtree`, consulted only when the directory exists; its exception
is not caught. -/
def clear_database (dbExists : Bool) (rmtreeRes : Except String Unit) : ClearOutcome :=
  if dbExists then
    match rmtreeRes with
    | .ok _ => ⟨.ok true, false⟩
    | .error e => ⟨.error e, true⟩
  else ⟨.ok false, false⟩

/-! ### Helper lemmas -/

/-- Zipping a list with its image under `f` pairs each element with its image. -/
theorem zip_map_self {α β : Type} (l : List α) (f : α → β) :
    l.zip (l.map f) = l.map (fun a => (a, f a)) := by
  induction l with
  | nil => rfl
  | cons x xs ih => simp [ih]

/-- Splitting a list's length by a Boolean predicate. -/
theorem length_filter_not_add {α : Type} (l : List α) (p : α → Bool) :
    (l.filter (fun a => !(p a))).length + (l.filter p).length = l.length := by
  induction l with
  | nil => rfl
  | cons x xs ih => cases hx : p x <;> simp [hx] <;> omega

/-- For an id among the requested ids, membership in the answer of
`collectionGet` is membership in the store. -/
theorem collectionGet_contains (storeIds ids : List String) (i : String)
    (h : i ∈ ids) :
    (collectionGet storeIds ids).contains i = storeIds.contains i := by
  unfold collectionGet
  cases hb : storeIds.contains i with
  | true =>
    have hm : i ∈ storeIds := by simpa [List.contains] using hb
    simp [List.contains, List.mem_filter, h, hb, hm]
  | false =>
    have hm : i ∉ storeIds := by simpa [List.contains] using hb
    simp [List.contains, List.mem_filter, hb, hm]

/-- The kept `(chunk, id)` pairs of an accumulate ingestion, when the
looked-up membership agrees pointwise with store membership: they are exactly
the chunks whose fingerprint is not in the store, each paired with its
fingerprint. -/
theorem accumulate_pairs (storeIds : List String) (chunks : List Chunk)
    (getE : List String)
    (hE : ∀ c ∈ chunks,
      getE.contains (chunkId c.page_content) = storeIds.contains (chunkId c.page_content)) :
    (chunks.zip (chunk_ids chunks)).filter (fun p => !(getE.contains p.2))
      = (chunks.filter
          (fun c => !(storeIds.contains (chunkId c.page_content)))).map
          (fun c => (c, chunkId c.page_content)) := by
  unfold chunk_ids
  rw [zip_map_self, List.filter_map]
  congr 1
  exact List.filter_congr (fun c hc => by
    simp only [Function.comp_apply]
    rw [hE c hc])

/-- Characterization of `accumulateIngest` (successful membership lookup): the
submitted chunks are those with novel fingerprints, in order, with matching
ids. -/
theorem accumulateIngest_eq (storeIds : List String) (chunks : List Chunk) :
    accumulateIngest storeIds chunks =
      { new_chunks :=
          chunks.filter (fun c => !(storeIds.contains (chunkId c.page_content)))
        new_chunk_ids :=
          (chunks.filter
            (fun c => !(storeIds.contains (chunkId c.page_content)))).map
            (fun c => chunkId c.page_content)
        duplicates_skipped := chunks.length -
          (chunks.filter
            (fun c => !(storeIds.contains (chunkId c.page_content)))).length
        storeAfter :=
          if (chunks.filter
            (fun c => !(storeIds.contains (chunkId c.page_content)))).isEmpty
          then storeIds
          else storeIds ++ (chunks.filter
            (fun c => !(storeIds.contains (chunkId c.page_content)))).map
            (fun c => chunkId c.page_content) } := by
  have hE : ∀ c ∈ chunks,
      (collectionGet storeIds (chunk_ids chunks)).contains (chunkId c.page_content)
        = storeIds.contains (chunkId c.page_content) := by
    intro c hc
    exact collectionGet_contains _ _ _ (by
      unfold chunk_ids; exact List.mem_map_of_mem _ hc)
  unfold accumulateIngest accumulateIngestWith
  simp only [accumulate_pairs storeIds chunks _ hE, List.map_map]
  simp [Function.comp_def]

/-- Every id submitted for insertion by an accumulate ingestion is absent
from the store. -/
theorem new_chunk_ids_novel (storeIds : List String) (chunks : List Chunk) :
    ∀ i ∈ (accumulateIngest storeIds chunks).new_chunk_ids, i ∉ storeIds := by
  rw [accumulateIngest_eq]
  intro i hi
  simp only [List.mem_map, List.mem_filter] at hi
  obtain ⟨c, ⟨_, hnc⟩, rfl⟩ := hi
  simpa [List.contains] using hnc

/-- The submitted ids of an accumulate ingestion form a sublist of the
candidate fingerprint list. -/
theorem new_chunk_ids_sublist (storeIds : List String) (chunks : List Chunk) :
    (accumulateIngest storeIds chunks).new_chunk_ids.Sublist (chunk_ids chunks) := by
  rw [accumulateIngest_eq]
  unfold chunk_ids
  exact (List.filter_sublist chunks).map _

/-! ### Claim theorems -/

/-- C1: in accumulate mode, each candidate chunk whose fingerprint is already
among the store's entry ids is skipped and counted as a duplicate, only the
chunks with novel fingerprints are passed to the store's insert operation
(with their matching ids in corresponding positions), and the number skipped
plus the number inserted equals the total number of candidate chunks. -/
theorem accumulate_dedup_correct (storeIds : List String) (chunks : List Chunk) :
    (accumulateIngest storeIds chunks).new_chunks
        = chunks.filter (fun c => !(storeIds.contains (chunkId c.page_content)))
    ∧ (accumulateIngest storeIds chunks).new_chunk_ids
        = (accumulateIngest storeIds chunks).new_chunks.map
            (fun c => chunkId c.page_content)
    ∧ (∀ i ∈ (accumulateIngest storeIds chunks).new_chunk_ids, i ∉ storeIds)
    ∧ (accumulateIngest storeIds chunks).duplicates_skipped
        = (chunks.filter (fun c => storeIds.contains (chunkId c.page_content))).length
    ∧ (accumulateIngest storeIds chunks).duplicates_skipped
        + (accumulateIngest storeIds chunks).new_chunks.length = chunks.length := by
  have hpart := length_filter_not_add chunks
    (fun c => storeIds.contains (chunkId c.page_content))
  simp only [] at hpart
  refine ⟨?_, ?_, new_chunk_ids_novel storeIds chunks, ?_, ?_⟩
  · rw [accumulateIngest_eq]
  · rw [accumulateIngest_eq]
  · rw [accumulateIngest_eq]
    show chunks.length
        - (chunks.filter (fun c => !(storeIds.contains (chunkId c.page_content)))).length
      = (chunks.filter (fun c => storeIds.contains (chunkId c.page_content))).length
    omega
  · rw [accumulateIngest_eq]
    show chunks.length
        - (chunks.filter (fun c => !(storeIds.contains (chunkId c.page_content)))).length
        + (chunks.filter (fun c => !(storeIds.contains (chunkId c.page_content)))).length
      = chunks.length
    omega

/-- C2: when every candidate fingerprint is already among the store's entry
ids, an accumulate-mode ingestion inserts nothing, skips every chunk, and
leaves the store unchanged. -/
theorem accumulate_idempotent (storeIds : List String) (chunks : List Chunk)
    (h : ∀ c ∈ chunks, storeIds.contains (chunkId c.page_content) = true) :
    (accumulateIngest storeIds chunks).new_chunks = []
    ∧ (accumulateIngest storeIds chunks).new_chunk_ids = []
    ∧ (accumulateIngest storeIds chunks).duplicates_skipped = chunks.length
    ∧ (accumulateIngest storeIds chunks).storeAfter = storeIds := by
  have hnil : chunks.filter (fun c => !(storeIds.contains (chunkId c.page_content))) = [] := by
    rw [List.filter_eq_nil_iff]
    intro c hc
    have hm : chunkId c.page_content ∈ storeIds := by
      simpa [List.contains] using h c hc
    simp [hm]
  rw [accumulateIngest_eq, hnil]
  simp

/-- Witness for C2: a store already holding the fingerprint of `"a"`, and the
one-chunk candidate list for `"a"`: the second ingestion inserts 0 entries,
skips 1, and leaves the store unchanged. -/
theorem accumulate_idempotent_witness :
    (∀ c ∈ [Chunk.mk "a" none], [chunkId "a"].contains (chunkId c.page_content) = true)
    ∧ (accumulateIngest [chunkId "a"] [Chunk.mk "a" none]).new_chunks = []
    ∧ (accumulateIngest [chunkId "a"] [Chunk.mk "a" none]).new_chunk_ids = []
    ∧ (accumulateIngest [chunkId "a"] [Chunk.mk "a" none]).duplicates_skipped = 1
    ∧ (accumulateIngest [chunkId "a"] [Chunk.mk "a" none]).storeAfter = [chunkId "a"] := by
  have hh : ∀ c ∈ [Chunk.mk "a" none],
      [chunkId "a"].contains (chunkId c.page_content) = true := by
    intro c hc
    simp only [List.mem_singleton] at hc
    subst hc
    simp [List.contains]
  have hmain := accumulate_idempotent [chunkId "a"] [Chunk.mk "a" none] hh
  exact ⟨hh, hmain.1, hmain.2.1, hmain.2.2.1, hmain.2.2.2⟩

/-- Counterexample to C7 as stated: two distinct candidate chunks with
identical content, against an empty store — both copies of the fingerprint
are submitted in the insertion batch, so the submitted batch does contain a
duplicate fingerprint. -/
theorem fingerprint_unique_batch_cex :
    (accumulateIngest [] [Chunk.mk "a" none, Chunk.mk "a" none]).new_chunk_ids
        = [chunkId "a", chunkId "a"]
    ∧ ¬ (accumulateIngest [] [Chunk.mk "a" none, Chunk.mk "a" none]).new_chunk_ids.Nodup := by
  have h1 : (accumulateIngest [] [Chunk.mk "a" none, Chunk.mk "a" none]).new_chunk_ids
      = [chunkId "a", chunkId "a"] := by
    rw [accumulateIngest_eq]
    simp [List.contains]
  refine ⟨h1, ?_⟩
  rw [h1]
  simp

/-- C7 (amended): no fingerprint already present in the store is submitted
for insertion, and whenever the candidate fingerprints are pairwise distinct
the submitted batch contains no duplicate; in-batch duplicates are possible
exactly when the candidate list itself repeats a fingerprint. -/
theorem fingerprint_unique_batch (storeIds : List String) (chunks : List Chunk) :
    (∀ i ∈ (accumulateIngest storeIds chunks).new_chunk_ids, i ∉ storeIds)
    ∧ ((chunk_ids chunks).Nodup →
        (accumulateIngest storeIds chunks).new_chunk_ids.Nodup) :=
  ⟨new_chunk_ids_novel storeIds chunks,
   fun h => h.sublist (new_chunk_ids_sublist storeIds chunks)⟩

/-- Counterexample to C6 as stated: with the store already holding the
fingerprint of `"a"`, a failing membership lookup is swallowed — the
ingestion proceeds as if no fingerprint existed and re-submits the id that
is in the store, instead of propagating the failure. -/
theorem lookup_failure_cex :
    (accumulateIngestWith [chunkId "a"] (Except.error "boom")
        [Chunk.mk "a" none]).new_chunk_ids = [chunkId "a"]
    ∧ (accumulateIngestWith [chunkId "a"]
        (Except.ok (collectionGet [chunkId "a"] (chunk_ids [Chunk.mk "a" none])))
        [Chunk.mk "a" none]).new_chunk_ids = [] := by
  constructor
  · simp [accumulateIngestWith, chunk_ids]
  · show (accumulateIngest [chunkId "a"] [Chunk.mk "a" none]).new_chunk_ids = []
    rw [accumulateIngest_eq]
    simp [List.contains]

/-- C6 (amended): a failure of the fingerprint-membership lookup during
accumulate-mode ingestion is caught and replaced by the empty membership
set, so the ingestion behaves exactly as if no candidate fingerprint were
present in the store (all chunks treated as novel), rather than propagating
the failure. -/
theorem lookup_failure_defaults (storeIds : List String) (chunks : List Chunk)
    (e : String) :
    accumulateIngestWith storeIds (Except.error e) chunks
      = accumulateIngestWith storeIds (Except.ok []) chunks := rfl

/-- The SHA-256 digest always holds exactly 32 bytes. -/
theorem sha256_length (msg : List Nat) : (sha256 msg).length = 32 := by
  simp [sha256, wordToBytes]

/-- Hex rendering doubles the byte count. -/
theorem hexdigest_length (bs : List Nat) : (hexdigest bs).data.length = 2 * bs.length := by
  simp only [hexdigest]
  rw [List.length_flatten, List.map_map]
  have : (List.map (List.length ∘ hexByte) bs) = List.map (fun _ => 2) bs :=
    List.map_congr_left (fun b _ => rfl)
  rw [this]
  induction bs with
  | nil => rfl
  | cons x xs ih => simp at ih ⊢; omega

/-- The full hex digest of any string holds 64 characters. -/
theorem content_hash_length (s : String) : (content_hash s).data.length = 64 := by
  unfold content_hash
  rw [hexdigest_length, sha256_length]

/-- C3: for every string, the fingerprint is the first 16 hex characters of
the SHA-256 digest of the UTF-8 encoding of the text, it always holds
exactly 16 characters (total, no error on any input), it is deterministic
(a pure function of the text), and on the empty string the digest agrees
with the published SHA-256 value `e3b0c442…`. -/
theorem fingerprint_spec :
    (∀ s : String,
        chunkId s = String.mk ((hexdigest (sha256 (utf8Encode s))).data.take 16)
        ∧ (chunkId s).length = 16)
    ∧ content_hash "" =
        "e3b0c44298fc1c149afbf4c8996fb92427ae41e4649b934ca495991b7852b855"
    ∧ chunkId "" = "e3b0c44298fc1c14" := by
  refine ⟨fun s => ⟨rfl, ?_⟩, by decide, by decide⟩
  show ((content_hash s).data.take 16).length = 16
  rw [List.length_take, content_hash_length]
  rfl

/-- C4: on a fresh-mode reset, deletion is attempted up to 3 times as long as
the failures are transient lock failures (`PermissionError`); success at any
attempt deletes the store; if all 3 attempts fail the store directory is
renamed aside with a timestamp suffix; and only if the rename also fails
does the operation raise, with a message naming the root-cause error. -/
theorem fresh_reset_retry (rmtree : Nat → DelOutcome) (renameOk : Bool)
    (timestamp : Nat) :
    (rmtree 0 = .ok → deleteWithRetry rmtree renameOk timestamp = .deleted)
    ∧ (∀ e0, rmtree 0 = .permError e0 → rmtree 1 = .ok →
        deleteWithRetry rmtree renameOk timestamp = .deleted)
    ∧ (∀ e0 e1, rmtree 0 = .permError e0 → rmtree 1 = .permError e1 →
        rmtree 2 = .ok →
        deleteWithRetry rmtree renameOk timestamp = .deleted)
    ∧ (∀ e0 e1 e2, rmtree 0 = .permError e0 → rmtree 1 = .permError e1 →
        rmtree 2 = .permError e2 → renameOk = true →
        deleteWithRetry rmtree renameOk timestamp
          = .renamedAside (backupDirName timestamp))
    ∧ (∀ e0 e1 e2, rmtree 0 = .permError e0 → rmtree 1 = .permError e1 →
        rmtree 2 = .permError e2 → renameOk = false →
        deleteWithRetry rmtree renameOk timestamp
          = .storeUnavailable (storeUnavailableMsg e2)) := by
  refine ⟨?_, ?_, ?_, ?_, ?_⟩
  · intro h0
    simp [deleteWithRetry, h0]
  · intro e0 h0 h1
    simp [deleteWithRetry, h0, h1]
  · intro e0 e1 h0 h1 h2
    simp [deleteWithRetry, h0, h1, h2]
  · intro e0 e1 e2 h0 h1 h2 hr
    simp [deleteWithRetry, h0, h1, h2, hr]
  · intro e0 e1 e2 h0 h1 h2 hr
    simp [deleteWithRetry, h0, h1, h2, hr]

/-- Counterexample to C5 as stated: requesting document `b.pdf`, a candidate
chunk sourced from the distinct document `ab.pdf` passes the code's suffix
filter and is returned without the fallback flag, although its source
basename `ab.pdf` is not the requested document name `b.pdf`. -/
theorem retrieval_filter_cex :
    (singleDocRetrieve (fun _ => [Chunk.mk "x" (some "ab.pdf")]) "b.pdf").docs
        = [Chunk.mk "x" (some "ab.pdf")]
    ∧ (singleDocRetrieve (fun _ => [Chunk.mk "x" (some "ab.pdf")]) "b.pdf").usedFallback
        = false
    ∧ ¬ (basename "ab.pdf" = basename "b.pdf") :=
  ⟨by decide, by decide, by decide⟩

/-- C5 (amended): single-document retrieval draws its candidate pool from a
similarity search with `k = 20`, keeps only candidates whose source string
ends with the requested document's basename (a suffix match, not a
basename-equality match), and truncates to at most 5 results; when no
candidate's source ends with the requested name, it falls back to the
unfiltered top 5 of the pool, observably flagged; when at least one
candidate matches, every returned chunk's source ends with the requested
name. -/
theorem retrieval_filter_fallback (search : Nat → List Chunk)
    (pdf_file_path : String) :
    (singleDocRetrieve search pdf_file_path).docs.length ≤ 5
    ∧ ((search 20).filter
          (fun d => strEndsWith (d.source.getD "") (basename pdf_file_path)) ≠ [] →
        (singleDocRetrieve search pdf_file_path).usedFallback = false
        ∧ (singleDocRetrieve search pdf_file_path).docs
            = ((search 20).filter
                (fun d => strEndsWith (d.source.getD "") (basename pdf_file_path))).take 5
        ∧ ∀ d ∈ (singleDocRetrieve search pdf_file_path).docs,
            strEndsWith (d.source.getD "") (basename pdf_file_path) = true)
    ∧ ((search 20).filter
          (fun d => strEndsWith (d.source.getD "") (basename pdf_file_path)) = [] →
        (singleDocRetrieve search pdf_file_path).usedFallback = true
        ∧ (singleDocRetrieve search pdf_file_path).docs = (search 20).take 5) := by
  by_cases hemp :
      (search 20).filter
        (fun d => strEndsWith (d.source.getD "") (basename pdf_file_path)) = []
  · have hres : singleDocRetrieve search pdf_file_path = ⟨(search 20).take 5, true⟩ := by
      simp only [singleDocRetrieve]
      rw [hemp]
      simp
    rw [hres]
    exact ⟨List.length_take_le 5 _, fun hne => absurd hemp hne, fun _ => ⟨rfl, rfl⟩⟩
  · have htk : ((search 20).filter
        (fun d => strEndsWith (d.source.getD "") (basename pdf_file_path))).take 5 ≠ [] := by
      rw [Ne, List.take_eq_nil_iff]
      intro h
      rcases h with h | h
      · exact absurd h (by decide)
      · exact hemp h
    have hres : singleDocRetrieve search pdf_file_path
        = ⟨((search 20).filter
            (fun d => strEndsWith (d.source.getD "") (basename pdf_file_path))).take 5,
           false⟩ := by
      simp only [singleDocRetrieve]
      rw [if_neg (by simpa [List.isEmpty_iff] using htk)]
    rw [hres]
    refine ⟨List.length_take_le 5 _, fun _ => ⟨rfl, rfl, ?_⟩, fun h => absurd h hemp⟩
    intro d hd
    have hdf := List.mem_of_mem_take hd
    exact (List.mem_filter.mp hdf).2

/-- Sum of the per-source chunk counts. -/
def sumCounts (m : List (String × Nat)) : Nat := (m.map Prod.snd).sum

/-- Bumping the entries keyed `s` does not change the key list. -/
theorem map_bump_fst (m : List (String × Nat)) (s : String) :
    (m.map (fun p => if p.1 == s then (p.1, p.2 + 1) else p)).map Prod.fst
      = m.map Prod.fst := by
  rw [List.map_map]
  exact List.map_congr_left (fun p _ => by
    cases h : p.1 == s <;> simp [Function.comp, h])

/-- Bumping is the identity on a list with no entry keyed `s`. -/
theorem map_bump_id (m : List (String × Nat)) (s : String)
    (h : ∀ p ∈ m, (p.1 == s) = false) :
    m.map (fun p => if p.1 == s then (p.1, p.2 + 1) else p) = m := by
  have hcongr : ∀ p ∈ m,
      (fun p : String × Nat => if p.1 == s then (p.1, p.2 + 1) else p) p = id p :=
    fun p hp => by simp [h p hp]
  rw [List.map_congr_left hcongr, List.map_id]

/-- With distinct keys and `s` present, bumping adds exactly one. -/
theorem map_bump_sum (m : List (String × Nat)) (s : String)
    (hnd : (m.map Prod.fst).Nodup) (hany : m.any (fun p => p.1 == s) = true) :
    sumCounts (m.map (fun p => if p.1 == s then (p.1, p.2 + 1) else p))
      = sumCounts m + 1 := by
  induction m with
  | nil => simp at hany
  | cons q m ih =>
    rw [List.map_cons, List.nodup_cons] at hnd
    cases hq : q.1 == s with
    | true =>
      have hqs : q.1 = s := by simpa using hq
      have hnots : ∀ p ∈ m, (p.1 == s) = false := by
        intro p hp
        cases hps : p.1 == s with
        | false => rfl
        | true =>
          have : p.1 = s := by simpa using hps
          exact absurd (List.mem_map_of_mem Prod.fst hp)
            (by rw [this, ← hqs] at *; exact fun hm => hnd.1 (this ▸ hm))
      rw [List.map_cons, map_bump_id m s hnots]
      simp [sumCounts, hq]
      omega
    | false =>
      have hany' : m.any (fun p => p.1 == s) = true := by
        simpa [hq] using hany
      rw [List.map_cons]
      simp only [hq, if_false, Bool.false_eq_true]
      have := ih hnd.2 hany'
      simp [sumCounts] at this ⊢
      omega

/-- `addCount` preserves distinctness of the keys. -/
theorem addCount_keys_nodup (m : List (String × Nat)) (s : String)
    (hnd : (m.map Prod.fst).Nodup) : ((addCount m s).map Prod.fst).Nodup := by
  unfold addCount
  cases hany : m.any (fun p => p.1 == s) with
  | true =>
    rw [if_pos rfl, map_bump_fst]
    exact hnd
  | false =>
    have hnmem : s ∉ m.map Prod.fst := by
      intro hs
      rcases List.mem_map.mp hs with ⟨p, hp, hps⟩
      have hfalse := List.any_eq_false.mp hany p hp
      rw [hps] at hfalse
      simp at hfalse
    rw [if_neg Bool.false_ne_true]
    simp [List.nodup_append, hnd, hnmem]

/-- With distinct keys, `addCount` adds exactly one to the total. -/
theorem addCount_sum (m : List (String × Nat)) (s : String)
    (hnd : (m.map Prod.fst).Nodup) :
    sumCounts (addCount m s) = sumCounts m + 1 := by
  unfold addCount
  cases hany : m.any (fun p => p.1 == s) with
  | true =>
    rw [if_pos rfl]
    exact map_bump_sum m s hnd hany
  | false =>
    rw [if_neg Bool.false_ne_true]
    simp [sumCounts]

/-- Invariant of the `source_files` fold: starting from a distinct-keyed
accumulator, the keys stay distinct and the counted total grows by one per
doc, provided every doc carries source metadata. -/
theorem sourceFold_inv (docs : List Chunk) :
    ∀ m : List (String × Nat), (m.map Prod.fst).Nodup →
      (∀ d ∈ docs, d.source.isSome = true) →
      ((docs.foldl
          (fun m d =>
            match d.source with
            | some s => addCount m (basename s)
            | none => m) m).map Prod.fst).Nodup
      ∧ sumCounts (docs.foldl
          (fun m d =>
            match d.source with
            | some s => addCount m (basename s)
            | none => m) m) = sumCounts m + docs.length := by
  induction docs with
  | nil => intro m hnd _; exact ⟨hnd, by simp⟩
  | cons d docs ih =>
    intro m hnd hsrc
    obtain ⟨s, hs⟩ := Option.isSome_iff_exists.mp (hsrc d (by simp))
    have hrest : ∀ d' ∈ docs, d'.source.isSome = true :=
      fun d' hd' => hsrc d' (by simp [hd'])
    have hstep := ih (addCount m (basename s)) (addCount_keys_nodup m _ hnd) hrest
    rw [List.foldl_cons, hs]
    refine ⟨hstep.1, ?_⟩
    rw [hstep.2, addCount_sum m _ hnd]
    simp
    omega

/-- The chunk distribution of an all-documents query sums to the number of
returned docs, when each returned doc carries source metadata. -/
theorem sourceFiles_sum (docs : List Chunk)
    (h : ∀ d ∈ docs, d.source.isSome = true) :
    sumCounts (sourceFilesOf docs) = docs.length := by
  have hinv := sourceFold_inv docs [] (by simp) h
  simpa [sourceFilesOf, sumCounts] using hinv.2

/-- C8: an all-documents query executes the similarity search directly with
the caller's limit `k` and performs no post-filtering — the returned docs
are exactly the search result — so at most `k` chunks come back (the store's
search honours its limit), and the returned `chunk_distribution` sums to the
number of returned chunks (each store entry carries source metadata). -/
theorem query_all_spec (search : Nat → List Chunk) (k : Nat)
    (hk : (search k).length ≤ k)
    (hsrc : ∀ d ∈ search k, d.source.isSome = true) :
    query_all_pdfs true search k
        = some ⟨search k, (sourceFilesOf (search k)).map Prod.fst,
            sourceFilesOf (search k)⟩
    ∧ (search k).length ≤ k
    ∧ sumCounts (sourceFilesOf (search k)) = (search k).length :=
  ⟨rfl, hk, sourceFiles_sum _ hsrc⟩

/-- Witness for C8: a one-chunk search result with `k = 1`: the query returns
it unfiltered, and the distribution `[("a.pdf", 1)]` sums to 1. -/
theorem query_all_spec_witness :
    query_all_pdfs true (fun _ => [Chunk.mk "x" (some "a.pdf")]) 1
        = some ⟨[Chunk.mk "x" (some "a.pdf")], ["a.pdf"], [("a.pdf", 1)]⟩
    ∧ ([Chunk.mk "x" (some "a.pdf")] : List Chunk).length ≤ 1
    ∧ sumCounts (sourceFilesOf [Chunk.mk "x" (some "a.pdf")]) = 1 := by
  have h := query_all_spec (fun _ => [Chunk.mk "x" (some "a.pdf")]) 1
    (by decide) (by decide)
  exact ⟨h.1.trans (by decide), h.2.1, h.2.2⟩

/-- The `os.walk` summation equals the sum of the sizes of the files whose
`getsize` succeeded. -/
theorem walkTotalSize_eq (sizes : List (Option Nat)) :
    walkTotalSize sizes = (sizes.filterMap id).sum := by
  suffices h : ∀ acc : Nat, sizes.foldl
      (fun acc s =>
        match s with
        | some n => acc + n
        | none => acc) acc
      = acc + (sizes.filterMap id).sum by
    simpa [walkTotalSize] using h 0
  induction sizes with
  | nil => intro acc; simp
  | cons x xs ih =>
    intro acc
    cases x with
    | none => simpa [List.filterMap_cons] using ih acc
    | some n =>
      simp only [List.foldl_cons, List.filterMap_cons, id]
      rw [ih (acc + n)]
      simp [List.sum_cons]
      omega

/-- C9: with no store present, `get_database_info` reports `exists = false`
and size 0 and `get_database_chunk_count` returns 0; with a store present
whose opening fails, the count is a typed error value (no crash); with a
store present, the reported size is the sum of the sizes of the readable
files under the store directory (unreadable files are skipped). -/
theorem introspection_spec (fileSizes : List (Option Nat))
    (openRes : Except String Nat) :
    get_database_info false fileSizes = ⟨false, 0⟩
    ∧ get_database_chunk_count false openRes = .count 0
    ∧ (∀ e, get_database_chunk_count true (.error e) = .errorMsg ("Error: " ++ e))
    ∧ (∀ n, get_database_chunk_count true (.ok n) = .count n)
    ∧ get_database_info true fileSizes = ⟨true, (fileSizes.filterMap id).sum⟩ := by
  refine ⟨rfl, rfl, fun e => rfl, fun n => rfl, ?_⟩
  show (⟨true, walkTotalSize fileSizes⟩ : DbInfo) = ⟨true, (fileSizes.filterMap id).sum⟩
  rw [walkTotalSize_eq]

/-- C10: `clear_database` returns `True` exactly when the store directory
existed — removing the directory in that case — and returns `False` with the
filesystem untouched and no exception when it does not exist; a deletion
failure propagates as a raised exception rather than a return value. -/
theorem clear_database_spec (dbExists : Bool) (rmtreeRes : Except String Unit) :
    clear_database false rmtreeRes = ⟨.ok false, false⟩
    ∧ clear_database true (.ok ()) = ⟨.ok true, false⟩
    ∧ (∀ b, (clear_database dbExists rmtreeRes).returned = .ok b →
        (b = true ↔ dbExists = true)) := by
  refine ⟨rfl, rfl, ?_⟩
  intro b hb
  cases dbExists with
  | false =>
    simp [clear_database] at hb
    simp [← hb]
  | true =>
    cases rmtreeRes with
    | ok u =>
      simp [clear_database] at hb
      simp [← hb]
    | error e => simp [clear_database] at hb

end GuardianAI
